import Mathlib

/-!
# Verification of the jii-ar-sql relational layer

Shallow embedding of the query-construction, condition-evaluation and
relational-hydration logic of the `jii-ar-sql` package, together with
theorems about the properties its specification states.

Value domain: the scalar JavaScript values that flow through the library
(column values, bind parameters, relation keys).  Numbers are modelled as
rationals with a separate `nan` constructor for the IEEE `NaN` produced by
`parseFloat`; `Expression` objects (raw SQL fragments) are a constructor of
their own because the library checks `instanceof Expression` at several
places.
-/

namespace JiiSql

/-- Scalar JavaScript value as used by the library: `null`, booleans,
numbers (with `NaN` separated out), strings, and `Jii.sql.Expression`
wrappers carrying a raw SQL fragment. -/
inductive JVal where
  | undefined : JVal
  | null : JVal
  | bool (b : Bool) : JVal
  | num (q : ℚ) : JVal
  | nan : JVal
  | str (s : String) : JVal
  | expr (sql : String) : JVal
deriving DecidableEq, Repr

/-- JavaScript `typeof` on the scalar value domain (`typeof null` is
`"object"`, and `Expression` instances are objects). -/
def jsTypeof : JVal → String
  | .undefined => "undefined"
  | .null => "object"
  | .bool _ => "boolean"
  | .num _ => "number"
  | .nan => "number"
  | .str _ => "string"
  | .expr _ => "object"

/-- Decimal rendering of a natural number, as JavaScript `String(n)` does
for non-negative integers. -/
def natRepr (n : ℕ) : String :=
  if h : n < 10 then String.singleton (Char.ofNat (48 + n))
  else natRepr (n / 10) ++ String.singleton (Char.ofNat (48 + n % 10))
decreasing_by exact Nat.div_lt_self (Nat.lt_of_lt_of_le (by decide) (Nat.le_of_not_lt h)) (by decide)

/-- Rendering of a rational to a string, modelling JavaScript's
number-to-string conversion (sign, integer part, and a fractional part when
the denominator is not 1).  The exact digit sequence of the fractional part
is irrelevant to every theorem below; what matters is that the result is
never the empty string and is deterministic. -/
def numToString (q : ℚ) : String :=
  (if q < 0 then "-" else "") ++ natRepr q.num.natAbs ++
    (if q.den = 1 then "" else "/" ++ natRepr q.den)

/-- JavaScript `String(v)` for the scalar value domain.  (An `Expression`
is an object; its string coercion is modelled by its SQL payload.) -/
def jsToString : JVal → String
  | .undefined => "undefined"
  | .null => "null"
  | .bool b => if b then "true" else "false"
  | .num q => numToString q
  | .nan => "NaN"
  | .str s => s
  | .expr sql => sql

/-- JavaScript truthiness of a scalar value. -/
def jsTruthy : JVal → Bool
  | .undefined => false
  | .null => false
  | .bool b => b
  | .num q => q ≠ 0
  | .nan => false
  | .str s => s ≠ ""
  | .expr _ => true

/-- Is the value an `Expression` instance? -/
def isExpression : JVal → Bool
  | .expr _ => true
  | _ => false

/-- One character of a decimal digit. -/
def isDigitChar (c : Char) : Bool := 48 ≤ c.toNat ∧ c.toNat ≤ 57

/-- Numeric value of a digit list (most significant first). -/
def digitsToNat (cs : List Char) : ℕ :=
  cs.foldl (fun acc c => acc * 10 + (c.toNat - 48)) 0

/-- Model of JavaScript `parseFloat` on a string: an optional sign followed
by decimal digits, optionally a fractional part; any other shape yields
`NaN`.  (The exponent forms accepted by the real builtin are not needed by
any theorem below: every use site only depends on the result having
JavaScript type `number`.) -/
def parseFloatJs (s : String) : JVal :=
  let cs := s.toList
  let (sign, rest) :=
    match cs with
    | '-' :: r => ((-1 : ℚ), r)
    | '+' :: r => ((1 : ℚ), r)
    | r => ((1 : ℚ), r)
  let intPart := rest.takeWhile isDigitChar
  let rest2 := rest.dropWhile isDigitChar
  match rest2 with
  | '.' :: frac =>
    let fracDigits := frac.takeWhile isDigitChar
    if intPart.isEmpty ∧ fracDigits.isEmpty then .nan
    else .num (sign * ((digitsToNat intPart : ℚ) +
      (digitsToNat fracDigits : ℚ) / ((10 : ℚ) ^ fracDigits.length)))
  | _ =>
    if intPart.isEmpty then .nan
    else .num (sign * (digitsToNat intPart : ℚ))

/-! ## ColumnSchema.typecast (src/lib/server/ColumnSchema.js) -/

/-- The column configuration consulted by `typecast`: the abstract column
type (`Jii.sql.BaseSchema.TYPE_*` string constants) and the host-language
type `jsType` (`"string"`, `"number"`, `"boolean"`, …). -/
structure ColumnSchema where
  type : String
  jsType : String
deriving DecidableEq, Repr

/-- The `case 'number'` arm of `typecast`: booleans become 1/0, anything
else goes through `parseFloat` (which coerces its argument to a string). -/
def toNumberJs : JVal → JVal
  | .bool b => .num (if b then 1 else 0)
  | v => parseFloatJs (jsToString v)

/-- `Jii.sql.ColumnSchema.typecast(value)` (ColumnSchema.js lines 74-100):
empty string becomes `null` unless the abstract type is text/string/binary;
`null`, values already of `jsType`, and `Expression` values pass through;
otherwise the value is converted to the column's host type (`String(value)`,
`parseFloat` with booleans mapped to 1/0, or `!!value`); any other `jsType`
returns the value unchanged. -/
def typecast (col : ColumnSchema) (value : JVal) : JVal :=
  if value = .str "" ∧ col.type ≠ "text" ∧ col.type ≠ "string" ∧ col.type ≠ "binary" then
    .null
  else if value = .null ∨ jsTypeof value = col.jsType ∨ isExpression value then
    value
  else if col.jsType = "string" then
    .str (jsToString value)
  else if col.jsType = "number" then
    toNumberJs value
  else if col.jsType = "boolean" then
    .bool (jsTruthy value)
  else
    value

theorem natRepr_length_pos (n : ℕ) : 0 < (natRepr n).length := by
  rw [natRepr]
  split
  · simp [String.singleton, String.length]
  · rw [String.length_append]
    have : 0 < (String.singleton (Char.ofNat (48 + n % 10))).length := by
      simp [String.singleton, String.length]
    omega

theorem numToString_ne_empty (q : ℚ) : numToString q ≠ "" := by
  unfold numToString
  intro h
  have hlen : (((if q < 0 then "-" else "") ++ natRepr q.num.natAbs ++
      (if q.den = 1 then "" else "/" ++ natRepr q.den)).length) = 0 := by
    rw [h]; rfl
  rw [String.length_append, String.length_append] at hlen
  have := natRepr_length_pos q.num.natAbs
  omega

theorem jsToString_ne_empty_of_nonstring (v : JVal) (h : jsTypeof v ≠ "string")
    (hx : isExpression v = false) : jsToString v ≠ "" := by
  cases v with
  | undefined => simp [jsToString]
  | null => simp [jsToString]
  | bool b => cases b <;> simp [jsToString]
  | num q => exact numToString_ne_empty q
  | nan => simp [jsToString]
  | str s => simp [jsTypeof] at h
  | expr sql => simp [isExpression] at hx

theorem jsTypeof_parseFloatJs (s : String) : jsTypeof (parseFloatJs s) = "number" := by
  unfold parseFloatJs
  dsimp only
  split <;> split <;> simp [jsTypeof]

theorem ne_str_of_jsTypeof_number (v : JVal) (h : jsTypeof v = "number") (t : String) :
    v ≠ .str t := by
  intro he; subst he; simp [jsTypeof] at h

/-- Second application of `typecast` is the identity on first-application
results: the core computation behind claim C8. -/
theorem typecast_typecast (col : ColumnSchema) (v : JVal) :
    typecast col (typecast col v) = typecast col v := by
  by_cases h1 : v = .str "" ∧ col.type ≠ "text" ∧ col.type ≠ "string" ∧ col.type ≠ "binary"
  · have hv : typecast col v = .null := by rw [typecast, if_pos h1]
    rw [hv, typecast]
    rw [if_neg (by simp), if_pos (by simp)]
  · by_cases h2 : v = .null ∨ jsTypeof v = col.jsType ∨ isExpression v = true
    · have hv : typecast col v = v := by rw [typecast, if_neg h1, if_pos h2]
      rw [hv]; exact hv
    · push_neg at h2
      obtain ⟨hnull, htyp, hexp⟩ := h2
      have hexp' : isExpression v = false := by
        cases hix : isExpression v
        · rfl
        · exact absurd hix hexp
      by_cases hs : col.jsType = "string"
      · have hv : typecast col v = .str (jsToString v) := by
          rw [typecast, if_neg h1, if_neg (by push_neg; exact ⟨hnull, htyp, hexp⟩), if_pos hs]
        have hne : jsToString v ≠ "" :=
          jsToString_ne_empty_of_nonstring v (fun hc => htyp (hc.trans hs.symm)) hexp'
        rw [hv, typecast]
        rw [if_neg (by simp [hne]), if_pos (by right; left; simp [jsTypeof, hs])]
      · by_cases hn : col.jsType = "number"
        · have hv : typecast col v = toNumberJs v := by
            rw [typecast, if_neg h1, if_neg (by push_neg; exact ⟨hnull, htyp, hexp⟩),
              if_neg hs, if_pos hn]
          have hnum : jsTypeof (typecast col v) = "number" := by
            rw [hv]
            cases v <;> simp only [toNumberJs] <;>
              first
              | exact jsTypeof_parseFloatJs _
              | rfl
          rw [typecast,
            if_neg (by rintro ⟨hc, -⟩; exact ne_str_of_jsTypeof_number _ hnum _ hc),
            if_pos (by right; left; rw [hnum, hn])]
        · by_cases hb : col.jsType = "boolean"
          · have hv : typecast col v = .bool (jsTruthy v) := by
              rw [typecast, if_neg h1, if_neg (by push_neg; exact ⟨hnull, htyp, hexp⟩),
                if_neg hs, if_neg hn, if_pos hb]
            rw [hv, typecast]
            rw [if_neg (by simp), if_pos (by right; left; simp [jsTypeof, hb])]
          · have hv : typecast col v = v := by
              rw [typecast, if_neg h1, if_neg (by push_neg; exact ⟨hnull, htyp, hexp⟩),
                if_neg hs, if_neg hn, if_neg hb]
            rw [hv]; exact hv

/-- C8: `ColumnSchema.typecast` is idempotent: for every column
configuration and every scalar value `v` that is neither `null` nor an
`Expression`, `typecast (typecast v) = typecast v`; the empty-string-to-null
coercion, the numeric parse, the boolean cast and the string cast are all
stable under a second application. -/
theorem C8_typecast_idempotent (col : ColumnSchema) (v : JVal)
    (hnull : v ≠ JVal.null) (hexpr : isExpression v = false) :
    typecast col (typecast col v) = typecast col v :=
  typecast_typecast col v

/-- Witness for C8 at a concrete column and value: a MySQL `datetime`
column (host type string) applied to the boolean `true`. -/
theorem C8_typecast_idempotent_witness :
    (JVal.bool true ≠ JVal.null) ∧ isExpression (JVal.bool true) = false ∧
      typecast ⟨"datetime", "string"⟩ (typecast ⟨"datetime", "string"⟩ (JVal.bool true)) =
        typecast ⟨"datetime", "string"⟩ (JVal.bool true) :=
  ⟨by decide, by decide,
    C8_typecast_idempotent ⟨"datetime", "string"⟩ (JVal.bool true) (by decide) (by decide)⟩

/-! ## Local condition evaluation (src `Jii.sql.FilterBuilder`, part_012)

`FilterBuilder.filterCondition(row, condition)` evaluates a structured
condition against an in-memory row without a database round trip.  The
embedding mirrors the dispatch tree of the source.  A JavaScript condition
is either an array whose head is an operator string or a hash object; the
grammar below represents operator arrays as `FCond.opCond` and hash objects
as `FCond.hashCond`, and the operands (`FArg`) cover the value shapes the
builders inspect: scalars, arrays of values, plain objects (composite-key
rows), `Jii.sql.Query` instances (sub-selects) and nested conditions. -/

/-- A row as seen by the local evaluator: a JavaScript object mapping
column names to scalar values (`Jii._.isEmpty`-style lookups return
`undefined` for absent keys). -/
abbrev Row := List (String × JVal)

/-- `row[column]`: property access, `undefined` when the key is absent. -/
def rowGet (row : Row) (column : String) : JVal :=
  match row.lookup column with
  | some v => v
  | none => .undefined

/-- JavaScript `Number(s)` string-to-number coercion: a trimmed empty
string is 0; otherwise the whole string must be a signed decimal literal
(`none` models `NaN`; exponent forms are not needed here). -/
def numberJs (s : String) : Option ℚ :=
  let t := s.trim
  if t = "" then some 0
  else
    let cs := t.toList
    let (sign, rest) : ℚ × List Char :=
      match cs with
      | '-' :: r => (-1, r)
      | '+' :: r => (1, r)
      | r => (1, r)
    let ip := rest.takeWhile isDigitChar
    let r2 := rest.dropWhile isDigitChar
    match r2 with
    | [] => if ip.isEmpty then none else some (sign * (digitsToNat ip : ℚ))
    | '.' :: frac =>
      let fd := frac.takeWhile isDigitChar
      let r3 := frac.dropWhile isDigitChar
      if ¬r3.isEmpty then none
      else if ip.isEmpty ∧ fd.isEmpty then none
      else some (sign * ((digitsToNat ip : ℚ) + (digitsToNat fd : ℚ) / (10 : ℚ) ^ fd.length))
    | _ => none

/-- JavaScript `Number(v)` coercion of a scalar (`none` models `NaN`). -/
def jsToNumber : JVal → Option ℚ
  | .undefined => none
  | .null => some 0
  | .bool b => some (if b then 1 else 0)
  | .num q => some q
  | .nan => none
  | .str s => numberJs s
  | .expr _ => none

/-- JavaScript loose equality `==` on the scalar value domain: `null` and
`undefined` are mutually equal and equal to nothing else, strings compare
verbatim against strings, `Expression` wrappers are distinct object
identities, and the remaining mixed comparisons coerce both sides to
numbers (so `NaN` is equal to nothing, including itself). -/
def jsLooseEq (a b : JVal) : Bool :=
  match a, b with
  | .null, .null | .null, .undefined | .undefined, .null | .undefined, .undefined => true
  | .null, _ | _, .null | .undefined, _ | _, .undefined => false
  | .str x, .str y => x = y
  | .expr _, _ | _, .expr _ => false
  | a, b =>
    match jsToNumber a, jsToNumber b with
    | some x, some y => x = y
    | _, _ => false

/-- JavaScript `a <= b` for the comparisons in `filterBetweenCondition`:
two strings compare lexicographically, anything else coerces to numbers
(comparisons involving `NaN` are false). -/
def jsLe (a b : JVal) : Bool :=
  match a, b with
  | .str x, .str y => x ≤ y
  | a, b =>
    match jsToNumber a, jsToNumber b with
    | some x, some y => x ≤ y
    | _, _ => false

mutual
/-- A condition in the shape `FilterBuilder.filterCondition` dispatches on:
an array whose head is an operator string, or a hash object mapping column
names to values. -/
inductive FCond where
  | opCond (op : String) (args : List FArg) : FCond
  | hashCond (entries : List (String × FArg)) : FCond

/-- An operand of a condition: a scalar, an array of operands (value list),
a plain object (composite-key value row), a `Jii.sql.Query` instance, or a
nested condition. -/
inductive FArg where
  | val (x : JVal) : FArg
  | list (xs : List FArg) : FArg
  | obj (entries : List (String × JVal)) : FArg
  | query : FArg
  | cond (c : FCond) : FArg
end

/-- ASCII uppercasing, modelling `String.prototype.toUpperCase` on the
operator tokens (which are ASCII). -/
def jsToUpper (s : String) : String :=
  ⟨s.data.map fun c => if 'a' ≤ c ∧ c ≤ 'z' then Char.ofNat (c.toNat - 32) else c⟩

/-- Locate the first occurrence of the substring `"NOT "` and drop it,
modelling `operator.indexOf('NOT ') !== -1` (via `isSome`) together with
`operator.replace(/NOT /, '')` (first occurrence only). -/
def stripNotAux : List Char → Option (List Char)
  | [] => none
  | c :: rest =>
    if c = 'N' ∧ rest.take 3 = ['O', 'T', ' '] then some (rest.drop 3)
    else (stripNotAux rest).map (c :: ·)

/-- `operator.replace(/NOT /, '')` (identity when `"NOT "` does not occur). -/
def stripFirstNot (s : String) : String :=
  match stripNotAux s.data with
  | some l => ⟨l⟩
  | none => s

theorem stripNotAux_length (cs : List Char) (out : List Char)
    (h : stripNotAux cs = some out) : out.length + 4 = cs.length := by
  induction cs generalizing out with
  | nil => simp [stripNotAux] at h
  | cons c rest ih =>
    rw [stripNotAux] at h
    split at h
    · rename_i hc
      have h3 : (rest.take 3).length = 3 := by rw [hc.2]; rfl
      have hlen : 3 ≤ rest.length := by
        rw [List.length_take] at h3; omega
      injection h with h'
      subst h'
      simp only [List.length_drop, List.length_cons]
      omega
    · rcases Option.map_eq_some'.mp h with ⟨o, ho, rfl⟩
      have := ih o ho
      simp only [List.length_cons]
      omega

/-- `Jii._.isEmpty` (lodash) on operand shapes: `null`/`undefined`, numbers
and booleans are "empty"; strings and arrays are empty when their length is
0; objects are empty when they have no own enumerable keys; a `Query`
instance is an object carrying its query attributes and is never empty. -/
def argIsEmpty : FArg → Bool
  | .val .undefined => true
  | .val .null => true
  | .val (.bool _) => true
  | .val (.num _) => true
  | .val .nan => true
  | .val (.str s) => s = ""
  | .val (.expr _) => false
  | .list xs => xs.isEmpty
  | .obj entries => entries.isEmpty
  | .query => false
  | .cond (.opCond _ _) => false
  | .cond (.hashCond entries) => entries.isEmpty

mutual
/-- JavaScript `String(x)` coercion of an operand, as used when an operand
is taken as a property key (`row[column]`): arrays join their elements with
commas, plain objects coerce to `"[object Object]"`.  The library always
passes string column names, so only the `val (str _)` case is exercised. -/
def jsPropKeyArg : FArg → String
  | .val x => jsToString x
  | .obj _ => "[object Object]"
  | .query => "[object Object]"
  | .cond c => jsPropKeyCond c
  | .list xs => String.intercalate "," (jsPropKeysList xs)

def jsPropKeyCond : FCond → String
  | .opCond op args => String.intercalate "," (op :: jsPropKeysList args)
  | .hashCond _ => "[object Object]"

def jsPropKeysList : List FArg → List String
  | [] => []
  | a :: rest => jsPropKeyArg a :: jsPropKeysList rest
end

/-- Errors raised by the local evaluator: `Jii.exceptions.InvalidParamException`
and `Jii.exceptions.NotSupportedException`, plus the `TypeError` a dynamic
dispatch on a non-string operator head would raise. -/
inductive FilterErr where
  | invalidParam : FilterErr
  | notSupported : FilterErr
  | typeError : FilterErr
deriving DecidableEq, Repr

/-- `Jii._.isArray(x) || Jii._.isObject(x)`: everything except primitive
scalars (`Expression` instances are objects). -/
def isArrObj : FArg → Bool
  | .val (.expr _) => true
  | .val _ => false
  | _ => true

/-- JavaScript truthiness of an operand (objects and arrays are truthy). -/
def argTruthy : FArg → Bool
  | .val x => jsTruthy x
  | _ => true

/-- The elements of an operand when it is a JavaScript array (`Jii._.isArray`):
value lists, and nested operator-form conditions (which are arrays whose head
is the operator string). -/
def argAsArray : FArg → Option (List FArg)
  | .list xs => some xs
  | .cond (.opCond op args) => some (FArg.val (.str op) :: args)
  | _ => none

/-- Iterating a JavaScript array with `Jii._.every(array, fn(value, column))`
passes the numeric index as the column, which is stringified on property
access. -/
def listEntries (xs : List FArg) : List (String × FArg) :=
  xs.enum.map fun p => (natRepr p.1, p.2)

/-- `Jii.sql.FilterBuilder.filterLikeCondition` (part_012 lines 267-327) as
it executes when dispatched from `filterCondition`: the dynamic call
`this[method].call(this, row, operator, condition)` binds the row to the
function's `operator` parameter and the operator STRING to its `operands`
parameter.  The guard `operands.length !== 2` therefore tests the operator
string's length (`'LIKE'.length = 4`, `'OR LIKE'.length = 7`) and raises
`InvalidParamException`; were the guard passed, the regular expression
`^(AND |OR |)((NOT |)I?LIKE)` would be applied to the row coerced to a
string and fail, raising `InvalidParamException` as well — so the
`NotSupportedException` on line 282 is unreachable from this entry point. -/
def filterLikeCondition (_row : Row) (operatorString : String)
    (_shifted : List FArg) : Except FilterErr Bool :=
  if operatorString.length ≠ 2 then .error .invalidParam
  else .error .invalidParam

/-- `Jii.sql.FilterBuilder.filterSimpleCondition` (part_012 lines 349-376)
as dispatched from `filterCondition`: its `operands` parameter receives the
operator string, so two-character operators (`>=`, `<=`, `<>`, `!=`) pass
the arity guard and reach the unconditional `throw NotSupportedException`
of line 358, while shorter or longer ones raise `InvalidParamException`. -/
def filterSimpleCondition (_row : Row) (operatorString : String)
    (_shifted : List FArg) : Except FilterErr Bool :=
  if operatorString.length ≠ 2 then .error .invalidParam
  else .error .notSupported

/-- `Jii.sql.FilterBuilder.filterExistsCondition` (part_012 lines 337-339):
unconditionally raises `NotSupportedException`. -/
def filterExistsCondition (_row : Row) (_operatorString : String)
    (_shifted : List FArg) : Except FilterErr Bool :=
  .error .notSupported

/-- The scalar value of an operand for the relational comparisons of
`filterBetweenCondition`; non-scalar operands would coerce through
`ToPrimitive` and are modelled as `NaN` (never ≤). -/
def argScalar : FArg → JVal
  | .val x => x
  | _ => .nan

/-- `Jii.sql.FilterBuilder.filterBetweenCondition` (part_012 lines 177-187):
`value1 <= row[column] && row[column] <= value2`, with an arity guard of
three operands. -/
def filterBetweenCondition (row : Row) (operands : List FArg) :
    Except FilterErr Bool :=
  match operands with
  | [column, v1, v2] =>
    let colK := jsPropKeyArg column
    .ok (jsLe (argScalar v1) (rowGet row colK) && jsLe (rowGet row colK) (argScalar v2))
  | _ => .error .invalidParam

/-- The `Jii._.some` loop of `filterInCondition` (part_012 lines 223-237):
for each value, a composite-key object is projected onto the column (absent
keys become `null`, as do the projections of the array/Query shapes that
`Jii._.isObject` also accepts but whose index-keyed lookups the library
never exercises); a `null` value tests `row[column] === null`, an
`Expression` value raises `NotSupportedException`, and anything else is
compared with `row[column] ==`.  The loop short-circuits on the first
match, as `Jii._.some` does. -/
def someInValues (row : Row) (colK : String) : List FArg → Except FilterErr Bool
  | [] => .ok false
  | v :: rest =>
    let value : JVal :=
      match v with
      | .obj es =>
        match es.lookup colK with
        | some x => x
        | none => .null
      | .val x => x
      | _ => .null
    if value = .null then
      if rowGet row colK = .null then .ok true else someInValues row colK rest
    else if isExpression value then .error .notSupported
    else if jsLooseEq (rowGet row colK) value then .ok true
    else someInValues row colK rest

/-- `Jii.sql.FilterBuilder.filterInCondition` (part_012 lines 193-238):
arity guard of two operands; an empty value list or empty column yields
`false`; a `Jii.sql.Query` value set raises `NotSupportedException`; a
non-array value is promoted to a singleton list; a multi-column composite
key raises `NotSupportedException`; a singleton column array is unwrapped;
then the values are tested by the `Jii._.some` loop. -/
def filterInCondition (row : Row) (operands : List FArg) :
    Except FilterErr Bool :=
  match operands with
  | [column, values] =>
    if argIsEmpty values ∨ argIsEmpty column then .ok false
    else
      match values with
      | .query => .error .notSupported
      | _ =>
        let vs := match argAsArray values with
          | some xs => xs
          | none => [values]
        match argAsArray column with
        | some (_ :: _ :: _) => .error .notSupported
        | some cs => someInValues row (jsPropKeyArg (cs.headD (.val .undefined))) vs
        | none => someInValues row (jsPropKeyArg column) vs
  | _ => .error .invalidParam

/-- `Jii.sql.FilterBuilder.filterHashCondition` (part_012 lines 109-129):
an implicit AND over the entries (`Jii._.every`, short-circuiting): array
and Query values delegate to an `IN` condition, `null` tests
`row[column] === null`, `Expression` values raise `NotSupportedException`,
and scalars are compared with `row[column] ==` (a nested condition value is
an array and also takes the `IN` branch; a plain-object value coerces to
`"[object Object]"` under `==`). -/
def filterHashCondition (row : Row) : List (String × FArg) → Except FilterErr Bool
  | [] => .ok true
  | (column, value) :: rest =>
    match value with
    | .list _ | .query | .cond _ => do
      let b ← filterInCondition row [.val (.str column), value]
      if b then filterHashCondition row rest else .ok false
    | .obj _ =>
      if jsLooseEq (rowGet row column) (.str "[object Object]") then
        filterHashCondition row rest
      else .ok false
    | .val .null =>
      if rowGet row column = .null then filterHashCondition row rest else .ok false
    | .val (.expr _) => .error .notSupported
    | .val x =>
      if jsLooseEq (rowGet row column) x then filterHashCondition row rest else .ok false

mutual
/-- Weight of a condition for the termination measure of the evaluator:
operator names count because `NOT `-stripping recurses on a shorter
operator string. -/
def condW : FCond → ℕ
  | .opCond op args => 1 + op.length + argsW args
  | .hashCond _ => 1

def argW : FArg → ℕ
  | .val x => 2 + (jsToString x).length
  | .list xs => 1 + argsW xs
  | .obj _ => 1
  | .query => 1
  | .cond c => 1 + condW c

def argsW : List FArg → ℕ
  | [] => 0
  | a :: rest => 1 + argW a + argsW rest
end

theorem jsToUpper_length (s : String) : (jsToUpper s).length = s.length := by
  show (s.data.map fun c =>
    if 'a' ≤ c ∧ c ≤ 'z' then Char.ofNat (c.toNat - 32) else c).length = s.data.length
  exact List.length_map _ _

theorem lexNatHelper (a b c d : ℕ) (h : a < c ∨ (a = c ∧ b < d)) :
    Prod.Lex (· < ·) (· < ·) (a, b) (c, d) := by
  rcases h with h | ⟨rfl, h⟩
  · exact Prod.Lex.left _ _ h
  · exact Prod.Lex.right _ h

mutual
/-- `Jii.sql.FilterBuilder.filterCondition` (part_012 lines 61-83): an empty
condition is `true`; an array whose head is a truthy operator string is
dispatched by the upper-cased operator — an operator containing `"NOT "`
is stripped of its first `"NOT "` and the whole (cloned, head-rewritten)
condition is wrapped as the single operand of a `NOT`; otherwise the
builder table routes `NOT`/`AND`/`OR`/`BETWEEN`/`IN`/`LIKE`/`OR LIKE`/
`EXISTS`, defaulting to `filterSimpleCondition`; a hash object (or an array
with a falsy head) is evaluated as a hash condition.  (A hash object with a
truthy `"0"` property would enter the operator branch, where
`[].concat(object)` wraps it whole and `.toUpperCase()` raises a
`TypeError`.) -/
def filterCondition (row : Row) : FCond → Except FilterErr Bool
  | .hashCond entries =>
    if entries.isEmpty then .ok true
    else
      match entries.lookup "0" with
      | some v => if argTruthy v then .error .typeError else filterHashCondition row entries
      | none => filterHashCondition row entries
  | .opCond op args =>
    if op = "" then
      filterHashCondition row (listEntries (FArg.val (.str op) :: args))
    else
      match hstrip : stripNotAux (jsToUpper op).data with
      | some l =>
        filterNotCondition row "NOT" [.cond (.opCond (⟨l⟩ : String) args)]
      | none =>
        match jsToUpper op with
        | "NOT" => filterNotCondition row "NOT" args
        | "AND" => filterAndCondition row true args
        | "OR" => filterAndCondition row false args
        | "BETWEEN" => filterBetweenCondition row args
        | "IN" => filterInCondition row args
        | "LIKE" => filterLikeCondition row "LIKE" args
        | "OR LIKE" => filterLikeCondition row "OR LIKE" args
        | "EXISTS" => filterExistsCondition row "EXISTS" args
        | other => filterSimpleCondition row other args
termination_by c => (condW c, 0)
decreasing_by
  · apply lexNatHelper
    have h4 := stripNotAux_length _ _ hstrip
    have h5 := jsToUpper_length op
    have h6 : (jsToUpper op).data.length = (jsToUpper op).length := rfl
    have h7 : (⟨l⟩ : String).length = l.length := rfl
    simp only [argsW, argW, condW]
    omega
  all_goals apply lexNatHelper
  all_goals simp only [condW]
  all_goals omega

/-- `Jii.sql.FilterBuilder.filterNotCondition` (part_012 lines 160-171):
exactly one operand; an array/object operand is evaluated as a condition,
any other operand leaves the accumulator `true`; the result is negated when
the operator is `NOT` (the only operator this is dispatched with). -/
def filterNotCondition (row : Row) (oper : String) (operands : List FArg) :
    Except FilterErr Bool :=
  match operands with
  | [operand] => do
    let b ← if isArrObj operand then evalArgAsCond row operand else pure true
    pure (if oper = "NOT" then !b else b)
  | _ => .error .invalidParam
termination_by (argsW operands, 1)
decreasing_by
  · apply lexNatHelper
    simp only [argsW]
    omega

/-- `Jii.sql.FilterBuilder.filterAndCondition` (part_012 lines 135-145):
`Jii._.every` over the operands for `AND`, `Jii._.some` for `OR`, in both
cases short-circuiting; a non-array, non-object operand raises
`NotSupportedException`. -/
def filterAndCondition (row : Row) (isAnd : Bool) (operands : List FArg) :
    Except FilterErr Bool :=
  match operands with
  | [] => .ok isAnd
  | operand :: rest =>
    if isArrObj operand then do
      let b ← evalArgAsCond row operand
      if isAnd then
        if b then filterAndCondition row isAnd rest else .ok false
      else
        if b then .ok true else filterAndCondition row isAnd rest
    else .error .notSupported
termination_by (argsW operands, 1)
decreasing_by
  all_goals apply lexNatHelper
  all_goals simp only [argsW]
  all_goals omega

/-- `filterCondition` applied to an operand (the `filterCondition(row,
operands[0])` calls of `filterNotCondition`/`filterAndCondition`): a nested
condition evaluates directly; an array with a truthy string head re-enters
the operator dispatch, with a falsy head it is iterated as a hash, and with
a truthy non-string head `.toUpperCase()` raises a `TypeError`; a plain
object evaluates as a hash condition (a truthy `"0"` property raises a
`TypeError` as in `filterCondition`); a `Query` instance is an object whose
attribute iteration is modelled as the empty hash; "empty" scalars are
vacuously true, a non-empty string re-enters the dispatch as a whole
condition, and an `Expression` object is iterated over its
`expression`/`params` fields. -/
def evalArgAsCond (row : Row) (a : FArg) : Except FilterErr Bool :=
  match a with
  | .cond c => filterCondition row c
  | .list [] => .ok true
  | .list (h :: t) =>
    if argTruthy h then
      match h with
      | .val (.str s) => filterCondition row (.opCond s t)
      | _ => .error .typeError
    else filterHashCondition row (listEntries (h :: t))
  | .obj es =>
    if es.isEmpty then .ok true
    else
      match es.lookup "0" with
      | some v =>
        if jsTruthy v then .error .typeError
        else filterHashCondition row (es.map fun p => (p.1, FArg.val p.2))
      | none => filterHashCondition row (es.map fun p => (p.1, FArg.val p.2))
  | .query => filterHashCondition row []
  | .val x =>
    if argIsEmpty (.val x) then .ok true
    else
      match x with
      | .str s => filterCondition row (.opCond s [])
      | .expr sql =>
        filterHashCondition row [("expression", .val (.str sql)), ("params", .obj [])]
      | _ => .error .typeError
termination_by (argW a, 0)
decreasing_by
  all_goals apply lexNatHelper
  all_goals simp only [argW, argsW, condW, jsToString]
  all_goals omega
end

/-- C5: the asymmetric empty-operand policy of the local evaluator: for
every row and every column name, `['in', column, []]` evaluates to `false`
(the local analogue of the constant-false `0=1`) while `['not in', column,
[]]` evaluates to `true` (the local analogue of the constant-true empty
condition). -/
theorem C5_empty_in_asymmetry (row : Row) (col : String) :
    filterCondition row (.opCond "in" [.val (.str col), .list []]) = .ok false ∧
    filterCondition row (.opCond "not in" [.val (.str col), .list []]) = .ok true := by
  constructor
  · simp [filterCondition, filterInCondition, argIsEmpty, jsToUpper, stripNotAux]
  · simp [filterCondition, filterNotCondition, evalArgAsCond, isArrObj, filterInCondition,
      argIsEmpty, jsToUpper, stripNotAux, stripFirstNot]

/-- C6 (code bug): local evaluation of a sub-query value set in an `in`
condition does raise `NotSupportedException`, but local evaluation of a
`like` condition with an `Expression` value raises `InvalidParamException`
instead of the intended `NotSupportedException`: the dispatcher calls
`this[method].call(this, row, operator, condition)` while
`filterLikeCondition` declares `(operator, operands, params)`, so its
`operands` parameter receives the operator string `'LIKE'` (length 4) and
the arity guard fires before the `NotSupportedException` on part_012 line
282 can be reached. -/
theorem C6_like_raises_wrong_error :
    filterCondition [("name", .str "foo")]
      (.opCond "in" [.val (.str "id"), .query]) = .error .notSupported ∧
    filterCondition [("name", .str "foo")]
      (.opCond "like" [.val (.str "name"), .list [.val (.expr "x")]]) =
        .error .invalidParam := by
  constructor
  · simp [filterCondition, filterInCondition, argIsEmpty, jsToUpper, stripNotAux]
  · simp [filterCondition, filterLikeCondition, jsToUpper, stripNotAux]

/-! ## The mysql driver connection (src/server/mysql/Connection.js)

`Connection.exec(sql, method)` wraps `this._connection.query(sql, cb)`.
The callback receives either a driver error or a result (`rows`: an array
of row objects for a select, an OK packet for a statement); `exec` shapes
it by result mode.  The embedding is a pure function of the callback's
input. -/

/-- An error reported by the mysql driver to the query callback. -/
structure DriverErr where
  message : String
deriving DecidableEq, Repr

/-- The successful payload of the driver callback: result rows for a
select, or an OK packet (`affectedRows`/`insertId`, 0 when no
auto-increment id was generated) for a statement. -/
inductive DriverOk where
  | resultRows (rs : List Row) : DriverOk
  | okPacket (affectedRows : ℕ) (insertId : ℕ) : DriverOk
deriving DecidableEq, Repr

/-- What the driver callback delivers. -/
inductive DriverResult where
  | err (e : DriverErr) : DriverResult
  | ok (payload : DriverOk) : DriverResult
deriving DecidableEq, Repr

/-- `Jii.sql.SqlQueryException`, as constructed by
`new SqlQueryException(err)` (Connection.js line 116): it carries the
driver error; the SQL text is written to the log by `Jii.error`, not stored
in the exception. -/
structure SqlQueryException where
  driverMessage : String
deriving DecidableEq, Repr

/-- The value an `exec` promise resolves with, by result mode. -/
inductive ExecValue where
  | rows (rs : List Row) : ExecValue
  | row (r : Row) : ExecValue
  | nullV : ExecValue
  | scalar (v : JVal) : ExecValue
  | column (vs : List JVal) : ExecValue
  | affected (affectedRows insertId : Option ℕ) : ExecValue
  | okPacketV (affectedRows insertId : ℕ) : ExecValue
  | boolFalse : ExecValue
deriving DecidableEq, Repr

/-- Settlement of the `exec` promise. -/
inductive ExecOutcome where
  | rejected (e : SqlQueryException) : ExecOutcome
  | resolved (v : ExecValue) : ExecOutcome
deriving DecidableEq, Repr

/-- `Jii._.values(row)[0]`: the first own value of a row object
(`undefined` for an empty object). -/
def firstRowValue (r : Row) : JVal :=
  match r with
  | [] => .undefined
  | (_, v) :: _ => v

/-- `Jii.sql.mysql.Connection.exec` (Connection.js lines 105-155): on a
driver error the promise is rejected with `new SqlQueryException(err)` only
when the method is `'execute'` or absent — for `'one'`, `'all'`,
`'scalar'` and `'column'` it RESOLVES with `false` (the error is only
logged); on success the result is shaped by the mode switch
(`execute` reads `affectedRows`/`insertId || null`, `one` takes the first
row or null, `all` passes the rows through verbatim, `scalar` takes the
first value of the first row, `column` maps each row to its first value,
and an unknown/absent mode passes the raw result through). -/
def exec (_sql : String) (method : Option String) (driver : DriverResult) :
    ExecOutcome :=
  match driver with
  | .err e =>
    if method = some "execute" ∨ method = none then
      .rejected ⟨e.message⟩
    else
      .resolved .boolFalse
  | .ok payload =>
    .resolved <|
      match method with
      | some "execute" =>
        match payload with
        | .okPacket a i => .affected (some a) (if i = 0 then none else some i)
        | .resultRows _ => .affected none none
      | some "one" =>
        match payload with
        | .resultRows (r :: _) => .row r
        | _ => .nullV
      | some "all" =>
        match payload with
        | .resultRows rs => .rows rs
        | .okPacket a i => .okPacketV a i
      | some "scalar" =>
        match payload with
        | .resultRows (r :: _) => .scalar (firstRowValue r)
        | _ => .nullV
      | some "column" =>
        match payload with
        | .resultRows rs => .column (rs.map firstRowValue)
        | .okPacket a i => .column []
      | _ =>
        match payload with
        | .resultRows rs => .rows rs
        | .okPacket a i => .okPacketV a i

/-- A column value as handed to the connection's `typeCast` option by the
mysql driver: the declared native column type and the wire value (absent
for SQL `NULL`). -/
structure MysqlField where
  nativeType : String
  raw : Option String
deriving DecidableEq, Repr

/-- `Jii.sql.mysql.Connection._typeCast` (Connection.js lines 86-88,
"Disable auto typing"): `return field.string()` — every non-NULL value is
delivered as its string representation, whatever the native column type. -/
def typeCastField (f : MysqlField) : JVal :=
  match f.raw with
  | some s => .str s
  | none => .null

/-- C3 (counterexample): a driver failure in result mode `'one'` is NOT
surfaced as a SqlQueryException — the promise resolves with `false`, so
the failure is silently swallowed for that mode. -/
theorem C3_counterexample_one_mode_swallows :
    exec "SELECT 1" (some "one") (.err ⟨"boom"⟩) = .resolved .boolFalse ∧
    ExecOutcome.resolved .boolFalse ≠ .rejected ⟨"boom"⟩ := by
  constructor
  · rfl
  · simp

/-- C3 (amended): a driver failure is rejected as a `SqlQueryException`
carrying the driver's message only in `'execute'` and default modes — and
the exception does not depend on the SQL text, which is only logged — while
in `'one'`, `'all'`, `'scalar'` and `'column'` modes the failure resolves
with `false`. -/
theorem C3_exec_error_modes (sql sql2 : String) (e : DriverErr) :
    exec sql (some "execute") (.err e) = .rejected ⟨e.message⟩ ∧
    exec sql none (.err e) = .rejected ⟨e.message⟩ ∧
    exec sql (some "execute") (.err e) = exec sql2 (some "execute") (.err e) ∧
    exec sql (some "one") (.err e) = .resolved .boolFalse ∧
    exec sql (some "all") (.err e) = .resolved .boolFalse ∧
    exec sql (some "scalar") (.err e) = .resolved .boolFalse ∧
    exec sql (some "column") (.err e) = .resolved .boolFalse := by
  refine ⟨rfl, rfl, rfl, ?_, ?_, ?_, ?_⟩ <;> rfl

/-- C9 (counterexample): the connection's `typeCast` override returns
`field.string()` for every column ("Disable auto typing"), so a numeric
column's value `42` is delivered as the string `"42"`, not as a number. -/
theorem C9_counterexample_numeric_as_string :
    typeCastField ⟨"long", some "42"⟩ = .str "42" ∧
    JVal.str "42" ≠ .num 42 := by
  exact ⟨rfl, by simp⟩

/-- C9 (amended): the driver connection disables native typing — every
non-NULL value is delivered as its string representation regardless of the
native column type — while the `'one'`/`'all'` result modes pass the rows
through verbatim (so column order within each row is preserved), and an
erroring statement (e.g. empty SQL text) is rejected only in
execute/default mode, resolving with `false` in `'one'`/`'all'`. -/
theorem C9_exec_typing_and_order (nt s sql : String) (r : Row) (rs : List Row)
    (e : DriverErr) :
    typeCastField ⟨nt, some s⟩ = .str s ∧
    typeCastField ⟨nt, none⟩ = .null ∧
    exec sql (some "all") (.ok (.resultRows rs)) = .resolved (.rows rs) ∧
    exec sql (some "one") (.ok (.resultRows (r :: rs))) = .resolved (.row r) ∧
    exec sql none (.err e) = .rejected ⟨e.message⟩ ∧
    exec sql (some "one") (.err e) = .resolved .boolFalse := by
  refine ⟨rfl, rfl, rfl, rfl, rfl, rfl⟩

/-! ## mysql Schema introspection (src/unnamed/part_011, `Jii.sql.mysql.Schema`)

`_loadTableSchema(name)` builds a `TableSchema`, resolves its names, then
chains `_findColumns(table).then(ok, fail).then(return table)`.
`_findColumns` catches a failing `SHOW FULL COLUMNS` query, logs it and
re-rejects; `_findConstraints` (driven by `SHOW CREATE TABLE`) has no
catch.  The promise plumbing is embedded as `Except` values parameterised
by the outcomes of the two introspection queries. -/

/-- The table metadata fields set by `_resolveTableNames`. -/
structure TableSchemaM where
  name : String
  schemaName : Option String
  fullName : String
deriving DecidableEq, Repr

/-- `Jii.sql.mysql.Schema._resolveTableNames` (part_011 lines 1715-1726):
strip backticks, split on `.`; a dotted name yields schema and table parts,
otherwise the bare name is also the full name. -/
def resolveTableNames (name : String) : TableSchemaM :=
  let parts := (name.replace "`" "").splitOn "."
  match parts with
  | p0 :: p1 :: _ => ⟨p1, some p0, p0 ++ "." ++ p1⟩
  | [p0] => ⟨p0, none, p0⟩
  | [] => ⟨"", none, ""⟩

/-- `Jii.sql.mysql.Schema._findColumns` (part_011 lines 1804-1835) as a
promise settlement: a successful `SHOW FULL COLUMNS` query resolves (the
parsed columns are attached to the table), a failing one is caught, logged
with `console.warn`, and re-rejected via `Jii.when.reject()`. -/
def findColumnsOutcome (colsQuery : Except DriverErr (List Row)) : Except Unit Unit :=
  match colsQuery with
  | .ok _ => .ok ()
  | .error _ => .error ()

/-- `Jii.sql.mysql.Schema._findConstraints` (part_011 lines 1860-1901):
driven by `_getCreateTableSql`; it has NO rejection handler, so a failing
`SHOW CREATE TABLE` query propagates as a rejection. -/
def findConstraintsOutcome (createTableQuery : Except DriverErr String) :
    Except DriverErr Unit :=
  createTableQuery.map fun _ => ()

/-- `Jii.sql.mysql.Schema._loadTableSchema` (part_011 lines 1697-1708):
`_findColumns(table).then(() => _findConstraints(table), () => { table =
null; }).then(() => table)`.  The two-argument `then` attaches the failure
handler to `_findColumns` only: a column-query failure sets `table = null`
and the chain RESOLVES with `null`, but a rejection coming out of the
success handler (`_findConstraints`) is not caught and the chain REJECTS. -/
def loadTableSchemaMysql (name : String) (colsQuery : Except DriverErr (List Row))
    (createTableQuery : Except DriverErr String) :
    Except DriverErr (Option TableSchemaM) :=
  let table := resolveTableNames name
  match findColumnsOutcome colsQuery with
  | .error () => .ok none
  | .ok () =>
    match findConstraintsOutcome createTableQuery with
    | .error e => .error e
    | .ok () => .ok (some table)

/-- C7 (counterexample): a failing constraints query (`SHOW CREATE TABLE`)
does NOT make `_loadTableSchema` resolve with `null` — the rejection
propagates, because the two-argument `then`'s failure handler only covers
`_findColumns`. -/
theorem C7_counterexample_constraints_failure :
    loadTableSchemaMysql "user" (.ok []) (.error ⟨"table vanished"⟩) =
      .error ⟨"table vanished"⟩ ∧
    (Except.error ⟨"table vanished"⟩ :
      Except DriverErr (Option TableSchemaM)) ≠ .ok none := by
  exact ⟨rfl, by simp⟩

/-- C7 (amended): `_loadTableSchema` resolves with `null` when the COLUMN
query fails (whatever the constraints query would do), resolves with the
resolved table when both queries succeed, and REJECTS when the column query
succeeds but the constraints query fails. -/
theorem C7_loadTableSchema_null_policy (name : String) (e e2 : DriverErr)
    (rs : List Row) (sqlText : String) :
    loadTableSchemaMysql name (.error e) (.ok sqlText) = .ok none ∧
    loadTableSchemaMysql name (.error e) (.error e2) = .ok none ∧
    loadTableSchemaMysql name (.ok rs) (.ok sqlText) =
      .ok (some (resolveTableNames name)) ∧
    loadTableSchemaMysql name (.ok rs) (.error e2) = .error e2 := by
  refine ⟨rfl, rfl, rfl, rfl⟩

/-! ## Plain-object property semantics

The source keys plain JavaScript objects with data-derived strings
(`hash[key]`, `buckets[key]`, `map[key2]`).  Reading a key that is absent
as an own property but names an inherited `Object.prototype` member yields
that member — a truthy function (or, for `__proto__`, the prototype object)
— not `undefined`.  The definitions below account for this. -/

/-- The property names every plain object inherits from `Object.prototype`:
reading one of these keys on a plain object with no own property of that
name yields a truthy value. -/
def protoKeys : List String :=
  ["constructor", "hasOwnProperty", "isPrototypeOf", "propertyIsEnumerable",
   "toLocaleString", "toString", "valueOf", "__defineGetter__",
   "__defineSetter__", "__lookupGetter__", "__lookupSetter__", "__proto__"]

/-- Does the key collide with an inherited `Object.prototype` member? -/
def isProtoKey (k : String) : Bool := protoKeys.contains k

/-- A JavaScript runtime error (calling a missing method, e.g. `.push` on
an inherited `Object.prototype` function). -/
inductive JsError where
  | typeError : JsError
deriving DecidableEq, Repr

/-! ## ActiveQuery.populate and duplicate removal (part_011 lines 338-404)

`populate(rows)` converts rows to models and, when the query carries joins
and no `indexBy`, removes duplicate models by primary key.  Models are
represented by their attribute rows; `_createModels` preserves the list's
order and multiplicity (record instantiation wraps each row), so it is the
identity in this embedding, and the `indexBy` re-keying of results is
outside this claim's scope. -/

/-- The first-occurrence filter at the heart of
`_removeDuplicatedModels`: walk the models in order, keep a model when
`hash[key]` is falsy (`if (!hash[key])`), remember the key
(`hash[key] = true`).  `hash` is a plain object, so `hash[key]` is truthy
both for the own keys stored so far AND for keys inheriting a truthy
member from `Object.prototype` (`constructor`, `toString`, …): a model
whose key names such a member is dropped even at its first occurrence, and
the `hash[key] = true` shadowing assignment is never reached for it.
`Jii._.values(newModels)` with ascending numeric keys returns the kept
models in their original order, which is what the recursion produces. -/
def dedupByFirst (f : α → String) (seen : List String) : List α → List α
  | [] => []
  | m :: rest =>
    if f m ∈ seen ∨ isProtoKey (f m) = true then dedupByFirst f seen rest
    else m :: dedupByFirst f (f m :: seen) rest

/-- `Jii.sql.ActiveQuery._removeDuplicatedModels` (part_011 lines 370-404)
for a model class with a single-column primary key: the hash is keyed by
`model.get(pk)` coerced to a property key (JavaScript string coercion). -/
def removeDuplicatedModels (pk : String) (models : List Row) : List Row :=
  dedupByFirst (fun m => jsToString (rowGet m pk)) [] models

/-- `Jii.sql.ActiveQuery.populate` (part_011 lines 338-362), single-column
primary key: empty input yields `[]`; duplicate removal runs only when
`this._join` is non-empty AND `this._indexBy` is null; the `with`
resolution and `afterFind` hooks do not change the model list. -/
def populate (join : List String) (indexBy : Option String) (pk : String)
    (rows : List Row) : List Row :=
  if rows.isEmpty then []
  else
    let models := rows
    if ¬join.isEmpty ∧ indexBy = none then removeDuplicatedModels pk models
    else models

theorem dedupByFirst_sublist (f : α → String) (seen : List String) (l : List α) :
    (dedupByFirst f seen l).Sublist l := by
  induction l generalizing seen with
  | nil => simp [dedupByFirst]
  | cons m rest ih =>
    rw [dedupByFirst]
    split
    · exact (ih seen).trans (List.sublist_cons_self m rest)
    · exact (ih (f m :: seen)).cons₂ m

theorem dedupByFirst_notin_seen (f : α → String) (seen : List String) (l : List α)
    (m : α) (hm : m ∈ dedupByFirst f seen l) :
    f m ∉ seen ∧ isProtoKey (f m) = false := by
  induction l generalizing seen with
  | nil => simp [dedupByFirst] at hm
  | cons a rest ih =>
    rw [dedupByFirst] at hm
    split at hm
    · exact ih seen hm
    · rename_i hcond
      push_neg at hcond
      rcases List.mem_cons.mp hm with rfl | hm'
      · exact ⟨hcond.1, by simpa using hcond.2⟩
      · have := ih (f a :: seen) hm'
        exact ⟨fun hc => this.1 (List.mem_cons_of_mem _ hc), this.2⟩

theorem dedupByFirst_first (f : α → String) (seen : List String) (l : List α)
    (m : α) (hm : m ∈ dedupByFirst f seen l) :
    (l.filter fun r => f r == f m).head? = some m := by
  induction l generalizing seen with
  | nil => simp [dedupByFirst] at hm
  | cons a rest ih =>
    rw [dedupByFirst] at hm
    split at hm
    · rename_i hcond
      have hprop := dedupByFirst_notin_seen f seen rest m hm
      have hne : f a ≠ f m := by
        intro hc
        rcases hcond with hs | hs
        · exact hprop.1 (hc ▸ hs)
        · rw [hc, hprop.2] at hs
          exact Bool.false_ne_true hs
      rw [List.filter_cons]
      simp only [beq_iff_eq, hne, if_neg, decide_eq_true_eq]
      exact ih seen hm
    · rcases List.mem_cons.mp hm with rfl | hm'
      · rw [List.filter_cons]
        simp
      · have hnotin := (dedupByFirst_notin_seen f (f a :: seen) rest m hm').1
        have hne : f a ≠ f m := fun hc => hnotin (hc ▸ List.mem_cons_self _ _)
        rw [List.filter_cons]
        simp only [beq_iff_eq, hne, if_neg, decide_eq_true_eq]
        exact ih (f a :: seen) hm'

theorem dedupByFirst_complete (f : α → String) (seen : List String) (l : List α)
    (r : α) (hr : r ∈ l) :
    f r ∈ seen ∨ isProtoKey (f r) = true ∨
      ∃ m ∈ dedupByFirst f seen l, f m = f r := by
  induction l generalizing seen with
  | nil => simp at hr
  | cons a rest ih =>
    rw [dedupByFirst]
    rcases List.mem_cons.mp hr with rfl | hr'
    · split
      · rename_i hcond
        rcases hcond with hs | hs
        · exact Or.inl hs
        · exact Or.inr (Or.inl hs)
      · exact Or.inr (Or.inr ⟨r, List.mem_cons_self _ _, rfl⟩)
    · split
      · exact ih seen hr'
      · rcases ih (f a :: seen) hr' with h | h | ⟨m, hm, hfm⟩
        · rcases List.mem_cons.mp h with h' | h'
          · exact Or.inr (Or.inr ⟨a, List.mem_cons_self _ _, h'.symm⟩)
          · exact Or.inl h'
        · exact Or.inr (Or.inl h)
        · exact Or.inr (Or.inr ⟨m, List.mem_cons_of_mem _ hm, hfm⟩)

theorem dedupByFirst_pairwise (f : α → String) (seen : List String) (l : List α) :
    (dedupByFirst f seen l).Pairwise fun a b => f a ≠ f b := by
  induction l generalizing seen with
  | nil => simp [dedupByFirst]
  | cons a rest ih =>
    rw [dedupByFirst]
    split
    · exact ih seen
    · refine List.Pairwise.cons ?_ (ih (f a :: seen))
      intro b hb hc
      exact (dedupByFirst_notin_seen f (f a :: seen) rest b hb).1
        (hc ▸ List.mem_cons_self _ _)

/-- C10 (counterexample): a model whose primary-key value stringifies to
`"constructor"` — an inherited `Object.prototype` member, truthy in
`if (!hash[key])` — is dropped by the join-deduplication even though it is
the first (and only) model with that key, so the claimed keeps-first
behavior fails. -/
theorem C10_counterexample_proto_pk :
    populate ["orders"] none "id" [[("id", JVal.str "constructor")]] = [] ∧
    ([] : List Row) ≠ [[("id", JVal.str "constructor")]] := by
  constructor
  · decide
  · simp

/-- C10 (amended): for a single-column primary key, `populate` applies
duplicate removal exactly when the query has at least one join and no
`indexBy`; the removal keeps, for each distinct primary-key value whose
property-key string does not collide with an inherited `Object.prototype`
member, exactly the first model carrying it, preserving the relative order
of survivors (a sublist of the input with pairwise-distinct keys); a model
whose key names such an inherited member is dropped entirely, even at its
first occurrence; with no joins, or with `indexBy` set, the models are
returned with duplicates intact. -/
theorem C10_populate_dedup (pk j ix : String) (js : List String)
    (indexBy : Option String) (rows : List Row) :
    populate (j :: js) none pk rows = removeDuplicatedModels pk rows ∧
    populate [] indexBy pk rows = rows ∧
    populate js (some ix) pk rows = rows ∧
    (removeDuplicatedModels pk rows).Sublist rows ∧
    (∀ m ∈ removeDuplicatedModels pk rows,
      isProtoKey (jsToString (rowGet m pk)) = false ∧
      (rows.filter fun r => jsToString (rowGet r pk) == jsToString (rowGet m pk)).head?
        = some m) ∧
    (∀ r ∈ rows, isProtoKey (jsToString (rowGet r pk)) = false →
      ∃ m ∈ removeDuplicatedModels pk rows,
        jsToString (rowGet m pk) = jsToString (rowGet r pk)) ∧
    (∀ r, isProtoKey (jsToString (rowGet r pk)) = true →
      r ∉ removeDuplicatedModels pk rows) ∧
    (removeDuplicatedModels pk rows).Pairwise
      (fun a b => jsToString (rowGet a pk) ≠ jsToString (rowGet b pk)) := by
  refine ⟨?_, ?_, ?_, dedupByFirst_sublist _ _ _,
    fun m hm => ⟨(dedupByFirst_notin_seen _ _ _ m hm).2,
      dedupByFirst_first _ _ _ m hm⟩,
    fun r hr hpk => ?_, fun r hpk hmem => ?_, dedupByFirst_pairwise _ _ _⟩
  · by_cases h : rows.isEmpty
    · have : rows = [] := List.isEmpty_iff.mp h
      subst this
      simp [populate, removeDuplicatedModels, dedupByFirst]
    · simp [populate, h]
  · by_cases h : rows.isEmpty
    · have : rows = [] := List.isEmpty_iff.mp h
      subst this
      simp [populate]
    · simp [populate, h]
  · by_cases h : rows.isEmpty
    · have : rows = [] := List.isEmpty_iff.mp h
      subst this
      simp [populate]
    · simp [populate, h]
  · rcases dedupByFirst_complete (fun m => jsToString (rowGet m pk)) [] rows r hr
      with h | h | h
    · simp at h
    · rw [hpk] at h
      exact absurd h (by simp)
    · exact h
  · have := (dedupByFirst_notin_seen (fun m => jsToString (rowGet m pk)) [] rows r hmem).2
    rw [this] at hpk
    exact Bool.false_ne_true hpk

/-! ## Relation hydration: the bucket algorithm (part_011 lines 998-1226)

`populateRelation(name, primaryModels)` (no `via` set, more than one
primary model or a multi-valued relation) runs `this.all()` for the related
models, groups them into buckets keyed by the link column(s) via
`_buildBuckets`, and assigns each primary model the bucket found under its
own key.  The buckets live in a plain object: pushing under a key that
names an inherited `Object.prototype` member reads that truthy member, so
`buckets[key] || []` keeps it and the following `.push` raises a
`TypeError`; and the assignment's `buckets[key] || (multiple ? [] : null)`
returns the inherited member — not the default — for a parent key with no
own bucket.  Models are plain attribute rows (the `asArray`
representation; an ActiveRecord's `get` reads the same attributes). -/

/-- `JSON.stringify` on scalar values (`NaN` serialises as `null`;
`undefined` has no JSON form and reads back as the property key
`"undefined"`; the object form of an `Expression` is abbreviated to its
fields). -/
def jsonStringifyLite : JVal → String
  | .null => "null"
  | .nan => "null"
  | .bool b => if b then "true" else "false"
  | .num q => numToString q
  | .str s => "\"" ++ s ++ "\""
  | .undefined => "undefined"
  | .expr sql => "\x7b\"expression\":\"" ++ sql ++ "\"\x7d"

/-- The single-attribute key of `_getModelKey` (part_011 lines 1324-1338):
numbers and strings are used as-is (`Jii._.isNumber(NaN)` is true, so `NaN`
is kept and stringifies to `"NaN"` on property access; other numbers
stringify likewise), anything else goes through `JSON.stringify`. -/
def getModelKeySingle (v : JVal) : String :=
  match v with
  | .num q => numToString q
  | .nan => "NaN"
  | .str s => s
  | v => jsonStringifyLite v

/-- `Jii.sql.ActiveQuery._getModelKey(model, attributes)` (part_011 lines
1324-1338): a multi-attribute key is the `JSON.stringify` of the value
tuple; a single attribute reads the model's value (an empty attribute list
reads property `undefined`, i.e. key `"undefined"`). -/
def getModelKey (model : Row) (attributes : List String) : String :=
  match attributes with
  | [] => getModelKeySingle (rowGet model "undefined")
  | [a] => getModelKeySingle (rowGet model a)
  | _ => "[" ++ String.intercalate ","
      (attributes.map fun a => jsonStringifyLite (rowGet model a)) ++ "]"

/-- The own-property success path of `buckets[key] = buckets[key] || [];
buckets[key].push(model)`: append to the own bucket under `key`, creating
it (in insertion order) when absent. -/
def appendBucket : List (String × List Row) → String → Row → List (String × List Row)
  | [], k, m => [(k, [m])]
  | (k', b) :: rest, k, m =>
    if k' = k then (k', b ++ [m]) :: rest else (k', b) :: appendBucket rest k m

/-- `buckets[key] = buckets[key] || []; buckets[key].push(model)` on a
plain object: an own bucket is appended to; with no own bucket, a key
naming an inherited `Object.prototype` member reads that truthy member, so
`||` keeps it and `.push` raises a `TypeError`; otherwise a fresh bucket is
created. -/
def bucketsPush : List (String × List Row) → String → Row →
    Except JsError (List (String × List Row))
  | [], k, m => if isProtoKey k then .error .typeError else .ok [(k, [m])]
  | (k', b) :: rest, k, m =>
    if k' = k then .ok ((k', b ++ [m]) :: rest)
    else (bucketsPush rest k m).map fun bs => (k', b) :: bs

/-- `map[key2] = map[key2] || \x7b\x7d; map[key2][key1] = true` of the via
branch of `_buildBuckets`: record `key1` under `key2` (object keys keep
first-insertion order, re-insertion moves nothing).  Setting a property on
an object — including, for a `key2` naming an `Object.prototype` member,
on the inherited function that `||` kept — does not throw, and the
subsequent own-key `Jii._.has`/`Jii._.each` reads see exactly the `key1`s
recorded in this invocation, which is what this model captures (the
cross-invocation pollution of the shared `Object.prototype` functions is
outside a single `_buildBuckets` run). -/
def viaMapInsert : List (String × List String) → String → String → List (String × List String)
  | [], k2, k1 => [(k2, [k1])]
  | (k, ks) :: rest, k2, k1 =>
    if k = k2 then (k, if k1 ∈ ks then ks else ks ++ [k1]) :: rest
    else (k, ks) :: viaMapInsert rest k2 k1

/-- The bucket-construction loops of `_buildBuckets` (part_011 lines
1185-1217), before any collapse: without via data, each related model is
pushed onto the bucket of its link-column key; with via data, a map from
parent-key to junction-keys is built first and each model is pushed onto
the buckets of the junction keys found under its own key.  The first push
under an `Object.prototype`-colliding key aborts the loop with a
`TypeError`. -/
def rawBuckets (models : List Row) (link : List (String × String))
    (viaData : Option (List Row × List (String × String))) :
    Except JsError (List (String × List Row)) :=
  match viaData with
  | none =>
    models.foldlM (fun bs m => bucketsPush bs (getModelKey m (link.map Prod.fst)) m) []
  | some (viaModels, viaLink) =>
    let map := viaModels.foldl (fun mp vm =>
      viaMapInsert mp (getModelKey vm (link.map Prod.snd))
        (getModelKey vm (viaLink.map Prod.fst))) []
    models.foldlM (fun bs m =>
      match map.lookup (getModelKey m (link.map Prod.fst)) with
      | some ks => ks.foldlM (fun bs k => bucketsPush bs k m) bs
      | none => .ok bs) []

/-- A bucket after `_buildBuckets` returns: still a list, or collapsed to
its first element. -/
inductive BucketVal where
  | many (ms : List Row) : BucketVal
  | one (m : Row) : BucketVal
deriving DecidableEq, Repr

/-- `buckets[i] = bucket[0]` (buckets are never empty by construction). -/
def collapseBucket (b : List Row) : BucketVal := .one (b.headD [])

/-- `Jii.sql.ActiveQuery._buildBuckets` (part_011 lines 1180-1226): build
the full buckets, THEN — only when `checkMultiple` is on and the relation
is single-valued — collapse each bucket to its first element (the collapse
iterates the own keys the construction produced). -/
def buildBuckets (multiple : Bool) (models : List Row)
    (link : List (String × String))
    (viaData : Option (List Row × List (String × String)))
    (checkMultiple : Bool) : Except JsError (List (String × BucketVal)) :=
  if checkMultiple ∧ ¬multiple then
    (rawBuckets models link viaData).map fun bs =>
      bs.map fun p => (p.1, collapseBucket p.2)
  else
    (rawBuckets models link viaData).map fun bs =>
      bs.map fun p => (p.1, BucketVal.many p.2)

/-- The value assigned to one primary model; `inherited name` is the truthy
`Object.prototype` member that `buckets[key] ||` reads through for a
colliding parent key with no own bucket. -/
inductive RelValue where
  | many (ms : List Row) : RelValue
  | one (m : Option Row) : RelValue
  | inherited (name : String) : RelValue
deriving DecidableEq, Repr

/-- The per-parent assignment of `populateRelation` (part_011 lines
1067-1100) for scalar keys: `value = buckets[key] || (this.multiple ? [] :
null)` with `key = this._getModelKey(primaryModel, link)` over the parent
columns.  An own bucket is taken first; with no own bucket, a key naming an
`Object.prototype` member yields the inherited truthy member instead of
the default.  (Key values are scalars in this value model, so the
array-valued-keys branch of lines 1072-1089 does not arise.) -/
def relValue (multiple : Bool) (buckets : List (String × BucketVal))
    (p : Row) (parentCols : List String) : RelValue :=
  match buckets.lookup (getModelKey p parentCols) with
  | some (.many ms) => .many ms
  | some (.one m) => .one (some m)
  | none =>
    if isProtoKey (getModelKey p parentCols) then .inherited (getModelKey p parentCols)
    else if multiple then .many [] else .one none

/-- The outcome of `populateRelation` on the claim's path: either the
single-parent/single-valued short-circuit that issues `this.one()` (lines
1033-1049), or the bucket branch with one assigned value per parent. -/
inductive PopulateOutcome where
  | oneBranch : PopulateOutcome
  | buckets (vals : List RelValue) : PopulateOutcome
deriving DecidableEq, Repr

/-- `Jii.sql.ActiveQuery.populateRelation` (part_011 lines 998-1109) with
no `via` configured and no `indexBy`: the via branches pass the primary
models through unchanged, `_filterByModels` only narrows the query that
produces `models = this.all()`, and the bucket branch assigns
`buckets[key] || default` per primary model; a `TypeError` thrown during
bucket construction rejects the promise chain. -/
def populateRelationNoVia (multiple : Bool) (models primaryModels : List Row)
    (link : List (String × String)) : Except JsError PopulateOutcome :=
  if primaryModels.length = 1 ∧ multiple = false then .ok .oneBranch
  else
    (buildBuckets multiple models link none true).map fun buckets =>
      .buckets (primaryModels.map fun p => relValue multiple buckets p (link.map Prod.snd))

theorem appendBucket_lookup (bs : List (String × List Row)) (k0 : String) (m : Row)
    (k : String) :
    (appendBucket bs k0 m).lookup k =
      if k = k0 then some (((bs.lookup k).getD []) ++ [m]) else bs.lookup k := by
  induction bs with
  | nil =>
    by_cases h : k = k0
    · subst h
      simp [appendBucket, List.lookup]
    · have hbeq : (k == k0) = false := beq_eq_false_iff_ne.mpr h
      simp [appendBucket, List.lookup, hbeq, h]
  | cons p rest ih =>
    obtain ⟨k', b⟩ := p
    rw [appendBucket]
    by_cases hA : k' = k0
    · rw [if_pos hA]
      subst hA
      by_cases h2 : k = k'
      · subst h2
        simp [List.lookup]
      · have hbeq : (k == k') = false := beq_eq_false_iff_ne.mpr h2
        simp [List.lookup, hbeq, h2]
    · rw [if_neg hA]
      by_cases h2 : k = k'
      · subst h2
        simp [List.lookup, hA]
      · have hbeq : (k == k') = false := beq_eq_false_iff_ne.mpr h2
        simp only [List.lookup, hbeq, cond_false]
        exact ih

theorem bucketsPush_ok (bs : List (String × List Row)) (k : String) (m : Row)
    (hk : isProtoKey k = false) :
    bucketsPush bs k m = .ok (appendBucket bs k m) := by
  induction bs with
  | nil => simp [bucketsPush, appendBucket, hk]
  | cons p rest ih =>
    obtain ⟨k', b⟩ := p
    rw [bucketsPush, appendBucket]
    by_cases h : k' = k
    · simp [h]
    · simp [h, ih, Except.map]

theorem groupModels_lookup (keyF : Row → String) (l : List Row)
    (bs : List (String × List Row)) (k : String) :
    (((l.foldl (fun bs m => appendBucket bs (keyF m) m) bs).lookup k).getD [] =
      ((bs.lookup k).getD []) ++ (l.filter fun m => keyF m == k)) ∧
    ((l.foldl (fun bs m => appendBucket bs (keyF m) m) bs).lookup k = none ↔
      bs.lookup k = none ∧ (l.filter fun m => keyF m == k) = []) := by
  induction l generalizing bs with
  | nil => simp
  | cons m rest ih =>
    simp only [List.foldl_cons, List.filter_cons]
    have hpush := appendBucket_lookup bs (keyF m) m k
    by_cases h : keyF m = k
    · have hbeq : (keyF m == k) = true := beq_iff_eq.mpr h
      rw [hbeq]
      simp only [if_pos]
      have hpush' : (appendBucket bs (keyF m) m).lookup k =
          some (((bs.lookup k).getD []) ++ [m]) := by
        rw [hpush, if_pos h.symm]
      obtain ⟨ihg, ihn⟩ := ih (appendBucket bs (keyF m) m)
      constructor
      · rw [ihg, hpush']
        simp
      · rw [ihn, hpush']
        simp
    · have hbeq : (keyF m == k) = false := beq_eq_false_iff_ne.mpr h
      rw [hbeq]
      simp only [Bool.false_eq_true, if_false]
      have hpush' : (appendBucket bs (keyF m) m).lookup k = bs.lookup k := by
        rw [hpush, if_neg (fun hc => h hc.symm)]
      obtain ⟨ihg, ihn⟩ := ih (appendBucket bs (keyF m) m)
      constructor
      · rw [ihg, hpush']
      · rw [ihn, hpush']

theorem lookup_map_value {β γ : Type} (g : β → γ) (bs : List (String × β)) (k : String) :
    ((bs.map fun p => (p.1, g p.2)).lookup k) = (bs.lookup k).map g := by
  induction bs with
  | nil => simp
  | cons p rest ih =>
    obtain ⟨k', b⟩ := p
    by_cases h : k = k'
    · subst h; simp [List.lookup]
    · have hbeq : (k == k') = false := beq_eq_false_iff_ne.mpr h
      simp only [List.map_cons, List.lookup, hbeq, cond_false]
      exact ih

/-- The own-key buckets the no-via grouping loop produces on its success
path (no model key colliding with `Object.prototype`). -/
def groupedBuckets (models : List Row) (c : String) : List (String × List Row) :=
  models.foldl (fun bs m => appendBucket bs (getModelKey m [c]) m) []

theorem foldlM_bucketsPush_ok (keyF : Row → String) (l : List Row)
    (bs : List (String × List Row))
    (hm : ∀ m ∈ l, isProtoKey (keyF m) = false) :
    l.foldlM (fun bs m => bucketsPush bs (keyF m) m) bs =
      .ok (l.foldl (fun bs m => appendBucket bs (keyF m) m) bs) := by
  induction l generalizing bs with
  | nil => rfl
  | cons m rest ih =>
    simp only [List.foldlM_cons, List.foldl_cons]
    rw [bucketsPush_ok bs (keyF m) m (hm m (List.mem_cons_self _ _))]
    show rest.foldlM (fun bs m => bucketsPush bs (keyF m) m)
        (appendBucket bs (keyF m) m) = _
    exact ih _ fun x hx => hm x (List.mem_cons_of_mem _ hx)

theorem rawBuckets_ok (models : List Row) (c pc : String)
    (hm : ∀ m ∈ models, isProtoKey (getModelKey m [c]) = false) :
    rawBuckets models [(c, pc)] none = .ok (groupedBuckets models c) := by
  have h := foldlM_bucketsPush_ok (fun m => getModelKey m [c]) models [] hm
  simpa [rawBuckets, groupedBuckets] using h

theorem groupedBuckets_lookup (models : List Row) (c k : String) :
    (((groupedBuckets models c).lookup k).getD [] =
      models.filter fun m => getModelKey m [c] == k) ∧
    ((groupedBuckets models c).lookup k = none ↔
      (models.filter fun m => getModelKey m [c] == k) = []) := by
  have h := groupModels_lookup (fun m => getModelKey m [c]) models [] k
  simpa [groupedBuckets] using h

theorem buildBuckets_ok (multiple : Bool) (models : List Row) (c pc : String)
    (hm : ∀ m ∈ models, isProtoKey (getModelKey m [c]) = false) :
    buildBuckets multiple models [(c, pc)] none true =
      .ok (if multiple then
            (groupedBuckets models c).map fun b => (b.1, BucketVal.many b.2)
           else
            (groupedBuckets models c).map fun b => (b.1, collapseBucket b.2)) := by
  cases multiple with
  | false =>
    rw [buildBuckets, if_pos (by simp), rawBuckets_ok models c pc hm]
    rfl
  | true =>
    rw [buildBuckets, if_neg (by simp), rawBuckets_ok models c pc hm]
    rfl

theorem relValue_filter (multiple : Bool) (models : List Row) (c pc : String) (p : Row)
    (hm : ∀ m ∈ models, isProtoKey (getModelKey m [c]) = false)
    (bucks : List (String × BucketVal))
    (hbucks : buildBuckets multiple models [(c, pc)] none true = .ok bucks) :
    relValue multiple bucks p [pc] =
      (if isProtoKey (getModelKey p [pc]) then
        RelValue.inherited (getModelKey p [pc])
       else if multiple then
        RelValue.many (models.filter fun m => getModelKey m [c] == getModelKey p [pc])
       else
        RelValue.one
          ((models.filter fun m => getModelKey m [c] == getModelKey p [pc]).head?)) := by
  rw [buildBuckets_ok multiple models c pc hm] at hbucks
  injection hbucks with hb
  obtain ⟨hg, hn⟩ := groupedBuckets_lookup models c (getModelKey p [pc])
  have hproto_none : isProtoKey (getModelKey p [pc]) = true →
      (groupedBuckets models c).lookup (getModelKey p [pc]) = none := by
    intro hp
    rw [hn, List.filter_eq_nil_iff]
    intro m hmem hc
    have hkey := hm m hmem
    rw [beq_iff_eq] at hc
    rw [← hc, hkey] at hp
    exact Bool.false_ne_true hp
  cases multiple with
  | false =>
    simp only [Bool.false_eq_true, if_false] at hb
    subst hb
    rw [relValue, lookup_map_value]
    by_cases hp : isProtoKey (getModelKey p [pc]) = true
    · rw [hproto_none hp]
      simp [hp]
    · have hp' : isProtoKey (getModelKey p [pc]) = false := by
        cases hx : isProtoKey (getModelKey p [pc])
        · rfl
        · exact absurd hx hp
      cases hr : (groupedBuckets models c).lookup (getModelKey p [pc]) with
      | none =>
        have hfil := hn.mp hr
        simp [hp', hfil]
      | some b =>
        have hb2 : b = models.filter fun m =>
            getModelKey m [c] == getModelKey p [pc] := by
          rw [← hg, hr]; rfl
        have hne : b ≠ [] := by
          intro hc
          have := hn.mpr (by rw [← hb2]; exact hc)
          rw [hr] at this
          exact Option.some_ne_none b this
        cases b with
        | nil => exact absurd rfl hne
        | cons x xs =>
          rw [← hb2]
          simp [collapseBucket, hp']
  | true =>
    simp only [if_pos] at hb
    subst hb
    rw [relValue, lookup_map_value]
    by_cases hp : isProtoKey (getModelKey p [pc]) = true
    · rw [hproto_none hp]
      simp [hp]
    · have hp' : isProtoKey (getModelKey p [pc]) = false := by
        cases hx : isProtoKey (getModelKey p [pc])
        · rfl
        · exact absurd hx hp
      cases hr : (groupedBuckets models c).lookup (getModelKey p [pc]) with
      | none =>
        have hfil := hn.mp hr
        simp [hp', hfil]
      | some b =>
        have hb2 : b = models.filter fun m =>
            getModelKey m [c] == getModelKey p [pc] := by
          rw [← hg, hr]; rfl
        simp [hb2, hp']

/-- C1 (counterexample): a related row whose link value is `"constructor"`
makes `_buildBuckets`'s `buckets[key].push` call the inherited
`Object.prototype.constructor` (kept by `buckets[key] || []`), which has no
`push` method — bucket construction throws a `TypeError` instead of
assigning each parent its matching rows (here `[]` for both parents, per
the claim). -/
theorem C1_counterexample_proto_key :
    populateRelationNoVia true
      [[("customer_id", JVal.str "constructor")]]
      [[("id", JVal.str "1")], [("id", JVal.str "2")]]
      [("customer_id", "id")] = .error .typeError ∧
    (Except.error JsError.typeError :
        Except JsError PopulateOutcome) ≠
      .ok (.buckets [.many [], .many []]) := by
  constructor
  · rfl
  · simp

/-- C1 (amended): for a single link column `childCol → parentCol`, no
junction, and related models none of whose link keys collide with an
inherited `Object.prototype` member, `populateRelation` takes the bucket
branch (whenever the single-parent short-circuit does not apply) and
assigns every parent with a non-colliding key the list of exactly those
related models whose link-column key equals that parent's key — in input
order, empty when none — for a `hasMany` relation, and only the FIRST such
model (`null` when none) for a `hasOne` relation; a parent whose key names
such a member receives the inherited member instead of the default; and
the collapse to the first element is applied after full bucket
construction, and only when the relation is single-valued (`checkMultiple`
on and `multiple` false), never during it. -/
theorem C1_bucket_algorithm (multiple : Bool) (models parents : List Row)
    (c pc : String) (h : ¬(parents.length = 1 ∧ multiple = false))
    (hm : ∀ m ∈ models, isProtoKey (getModelKey m [c]) = false) :
    populateRelationNoVia multiple models parents [(c, pc)] =
      .ok (.buckets (parents.map fun p =>
        if isProtoKey (getModelKey p [pc]) then
          RelValue.inherited (getModelKey p [pc])
        else if multiple then
          RelValue.many (models.filter fun m => getModelKey m [c] == getModelKey p [pc])
        else
          RelValue.one
            ((models.filter fun m => getModelKey m [c] == getModelKey p [pc]).head?))) ∧
    buildBuckets false models [(c, pc)] none true =
      (rawBuckets models [(c, pc)] none).map
        (fun bs => bs.map fun b => (b.1, collapseBucket b.2)) ∧
    buildBuckets multiple models [(c, pc)] none false =
      (rawBuckets models [(c, pc)] none).map
        (fun bs => bs.map fun b => (b.1, BucketVal.many b.2)) := by
  refine ⟨?_, ?_, ?_⟩
  · rw [populateRelationNoVia, if_neg h, buildBuckets_ok multiple models c pc hm]
    have hr : ∀ p : Row,
        relValue multiple
          (if multiple then
            (groupedBuckets models c).map fun b => (b.1, BucketVal.many b.2)
           else
            (groupedBuckets models c).map fun b => (b.1, collapseBucket b.2)) p
          ([(c, pc)].map Prod.snd) =
          (if isProtoKey (getModelKey p [pc]) then
            RelValue.inherited (getModelKey p [pc])
           else if multiple then
            RelValue.many (models.filter fun m => getModelKey m [c] == getModelKey p [pc])
           else
            RelValue.one
              ((models.filter fun m =>
                getModelKey m [c] == getModelKey p [pc]).head?)) := by
      intro p
      have := relValue_filter multiple models c pc p hm _
        (buildBuckets_ok multiple models c pc hm)
      simpa using this
    simp only [Except.map, hr]
  · rw [buildBuckets, if_pos (by simp)]
  · rw [buildBuckets, if_neg (by simp)]

/-- Witness for C1 at the spec's example (string-typed keys, none of them
colliding with `Object.prototype`): parents `[{id:"1"}, {id:"2"}]`,
related `[{id:"10",customer_id:"1"}, {id:"11",customer_id:"1"},
{id:"12",customer_id:"2"}]` linked by `customer_id → id`: `hasMany`
assigns parent 1 both matching rows in order and parent 2 the third row. -/
theorem C1_bucket_algorithm_witness :
    populateRelationNoVia true
      [[("id", JVal.str "10"), ("customer_id", JVal.str "1")],
       [("id", JVal.str "11"), ("customer_id", JVal.str "1")],
       [("id", JVal.str "12"), ("customer_id", JVal.str "2")]]
      [[("id", JVal.str "1")], [("id", JVal.str "2")]]
      [("customer_id", "id")] =
    .ok (.buckets
      [RelValue.many
        [[("id", JVal.str "10"), ("customer_id", JVal.str "1")],
         [("id", JVal.str "11"), ("customer_id", JVal.str "1")]],
       RelValue.many
        [[("id", JVal.str "12"), ("customer_id", JVal.str "2")]]]) := by
  have h := (C1_bucket_algorithm true
    [[("id", JVal.str "10"), ("customer_id", JVal.str "1")],
     [("id", JVal.str "11"), ("customer_id", JVal.str "1")],
     [("id", JVal.str "12"), ("customer_id", JVal.str "2")]]
    [[("id", JVal.str "1")], [("id", JVal.str "2")]]
    "customer_id" "id" (by simp) (by decide)).1
  rw [h]
  rfl

/-! ## joinWith expansion and rebuild safety (part_011 lines 244-252, 517-557)

`prepare(builder)` first expands the queued `joinWith` entries into actual
join clauses (`_buildJoinWith`) and then clears the queue, so that building
the same ActiveQuery again does not re-add the joins.  `_buildJoinWith`
saves the explicit joins, clears `this._join`, lets `_joinWithRelations`
push one join per relation-path segment (this walk dispatches through the
model class's relation getters and is abstracted here as the function
`expandRel` of the queue), de-duplicates the pushed joins through a
`JSON.stringify`-keyed object, and appends the saved explicit joins.  (The
merging of the relations' own where/having/order/params and the `with`
bookkeeping mutate other fields and are outside this claim's join-clause
scope.) -/

/-- One join clause as pushed by `this.join(joinType, table, on)`:
de-duplication compares the `JSON.stringify` of the whole clause, i.e.
structural equality. -/
structure JoinClause where
  joinType : String
  table : String
  onCond : String
deriving DecidableEq, Repr

/-- One queued `joinWith` entry: `[with, eagerLoading, joinType]`. -/
structure JoinWithEntry where
  withSpec : List String
  eagerLoading : Bool
  joinType : String
deriving DecidableEq, Repr

/-- The join-related state of an ActiveQuery: the queued `_joinWith`
entries and the accumulated `_join` clauses. -/
structure AQJoinState where
  joinWith : List JoinWithEntry
  join : List JoinClause
deriving DecidableEq, Repr

/-- The `uniqueJoins` object of `_buildJoinWith` (part_011 lines 546-550):
`uniqueJoins[JSON.stringify(j)] = j` over the pushed joins, then
`Jii._.values(uniqueJoins)` — string keys keep first-insertion order and a
re-assignment stores an equal value, so the result keeps the first
occurrence of each distinct clause. -/
def uniqueJoins : List JoinClause → List JoinClause
  | [] => []
  | j :: rest => j :: uniqueJoins (rest.filter fun j2 => ¬(j2 = j))
termination_by l => l.length
decreasing_by
  have := List.length_filter_le (fun j2 => decide ¬(j2 = j)) rest
  simp only [List.length_cons]
  omega

/-- `Jii.sql.ActiveQuery._buildJoinWith` (part_011 lines 517-557) as a join
state transformation: save the explicit joins, clear `_join`, push the
relation-walk expansion of the queue (`expandRel`), de-duplicate, then
append the explicit joins back. -/
def buildJoinWith (expandRel : List JoinWithEntry → List JoinClause)
    (s : AQJoinState) : AQJoinState :=
  let explicitJoin := s.join
  let expanded := expandRel s.joinWith
  let deduped := uniqueJoins expanded
  { s with join := if explicitJoin.isEmpty then deduped else deduped ++ explicitJoin }

/-- The joinWith half of `Jii.sql.ActiveQuery.prepare` (part_011 lines
244-252): when entries are queued, expand them and CLEAR the queue
("clean it up to avoid issue jiisoft/jii2#2687"). -/
def prepareJoins (expandRel : List JoinWithEntry → List JoinClause)
    (s : AQJoinState) : AQJoinState :=
  if s.joinWith.isEmpty then s
  else { buildJoinWith expandRel s with joinWith := [] }

theorem uniqueJoins_sublist (l : List JoinClause) : (uniqueJoins l).Sublist l := by
  induction l using uniqueJoins.induct with
  | case1 => simp [uniqueJoins]
  | case2 j rest ih =>
    rw [uniqueJoins]
    exact (ih.trans (List.filter_sublist rest)).cons₂ j

theorem mem_uniqueJoins (l : List JoinClause) (j : JoinClause) :
    j ∈ uniqueJoins l ↔ j ∈ l := by
  induction l using uniqueJoins.induct with
  | case1 => simp [uniqueJoins]
  | case2 a rest ih =>
    rw [uniqueJoins]
    constructor
    · intro h
      rcases List.mem_cons.mp h with rfl | h'
      · exact List.mem_cons_self _ _
      · exact List.mem_cons_of_mem _ ((List.filter_sublist rest).mem (ih.mp h'))
    · intro h
      rcases List.mem_cons.mp h with rfl | h'
      · exact List.mem_cons_self _ _
      · by_cases hja : j = a
        · subst hja; exact List.mem_cons_self _ _
        · refine List.mem_cons_of_mem _ (ih.mpr ?_)
          rw [List.mem_filter]
          exact ⟨h', by simpa using hja⟩

theorem uniqueJoins_nodup (l : List JoinClause) : (uniqueJoins l).Nodup := by
  induction l using uniqueJoins.induct with
  | case1 => simp [uniqueJoins]
  | case2 a rest ih =>
    rw [uniqueJoins]
    refine List.Nodup.cons ?_ ih
    intro hc
    have := (mem_uniqueJoins _ _).mp hc
    rw [List.mem_filter] at this
    simpa using this.2

theorem prepareJoins_of_empty (expandRel : List JoinWithEntry → List JoinClause)
    (s : AQJoinState) (h : s.joinWith = []) : prepareJoins expandRel s = s := by
  rw [prepareJoins]
  simp [h]

/-- C2: preparing the same ActiveQuery twice is idempotent on the join
state — the first `prepare` clears the `joinWith` queue, so the second
finds it empty and leaves the join clauses exactly as the first produced
them (no duplicated JOINs) — and the expansion's de-duplication pass keeps
exactly one copy of each distinct pushed JOIN clause (first occurrence,
order preserved as a sublist) while losing none. -/
theorem C2_prepare_joins_idempotent
    (expandRel : List JoinWithEntry → List JoinClause) (s : AQJoinState) :
    prepareJoins expandRel (prepareJoins expandRel s) = prepareJoins expandRel s ∧
    (prepareJoins expandRel s).joinWith = [] ∧
    (uniqueJoins (expandRel s.joinWith)).Nodup ∧
    (∀ j, j ∈ uniqueJoins (expandRel s.joinWith) ↔ j ∈ expandRel s.joinWith) ∧
    (uniqueJoins (expandRel s.joinWith)).Sublist (expandRel s.joinWith) := by
  have hq : (prepareJoins expandRel s).joinWith = [] := by
    rw [prepareJoins]
    split
    · rename_i h
      exact List.isEmpty_iff.mp h
    · rfl
  exact ⟨prepareJoins_of_empty expandRel _ hq, hq, uniqueJoins_nodup _,
    fun j => mem_uniqueJoins _ j, uniqueJoins_sublist _⟩

/-! ## Lazy-relational prepare and the where frame (part_011 lines 283-333, 1286-1317)

For a lazy-relational query, `prepare` clones `this._where`, resolves the
via chain (junction rows, an intermediate relation's results, or just the
primary model), calls `_filterByModels` — which mutates `this._where`
through `andWhere` — snapshots the query (`Jii.sql.Query.createFromQuery`),
and then RESTORES `this._where = where` before returning; the extra `_on`
condition is added to the derived query only. -/

/-- The state of a lazy-relational ActiveQuery relevant to `prepare`'s
where handling.  `Modelled from the spec:` the base `Query` class (its
`where` attribute and `andWhere`) is not under `src/`; per the spec,
`andWhere` conjoins the new condition with the existing `where` using the
`and` operator form, and `where` is the only query attribute
`_filterByModels` mutates. -/
structure AQLazyState where
  whereCond : Option FCond
  onCond : Option FCond
  link : List (String × String)
  join : List JoinClause
  joinWith : List JoinWithEntry
  fromTables : List String
  tableName : String

/-- `Modelled from the spec:` `Query.andWhere(condition)` — the `Query`
class is not under `src/` — sets `where` when unset, otherwise replaces it
with `['and', where, condition]`. -/
def andWhere (w : Option FCond) (c : FCond) : Option FCond :=
  match w with
  | none => some c
  | some w0 => some (.opCond "and" [.cond w0, .cond c])

/-- `Jii.sql.ActiveQuery._prefixKeyColumns` (part_011 lines 1252-1281):
when the query has joins or queued joinWith entries, prefix each link
column with the primary table's alias (the model class's table name when
`from` is unset, else the first `from` entry; the array form of `from` is
modelled). -/
def prefixKeyColumns (s : AQLazyState) (attributes : List String) : List String :=
  if ¬s.join.isEmpty ∨ ¬s.joinWith.isEmpty then
    let tableAlias :=
      match s.fromTables with
      | [] => s.tableName
      | t :: _ => t
    attributes.map fun a => tableAlias ++ "." ++ a
  else attributes

/-- `Jii._.unique(values)` (lodash `uniq`, SameValueZero): scalar values
de-duplicate structurally keeping the first occurrence; the fresh
composite-key objects are distinct references and all survive. -/
def uniqVals (seen : List JVal) : List FArg → List FArg
  | [] => []
  | .val v :: rest =>
    if v ∈ seen then uniqVals seen rest else .val v :: uniqVals (v :: seen) rest
  | a :: rest => a :: uniqVals seen rest

/-- `Jii.sql.ActiveQuery._filterByModels(models)` (part_011 lines
1286-1317): prefix the link's child columns, collect the models' values
under the link — for a single link column the non-null scalars (array
values would be flattened; scalars in this value model), for a composite
link one object per model keyed by the child columns — and `andWhere` an
`['in', attributes, unique(values)]` condition onto the query. -/
def filterByModels (s : AQLazyState) (models : List Row) : AQLazyState :=
  let attributes := prefixKeyColumns s (s.link.map Prod.fst)
  let values : List FArg :=
    if s.link.length = 1 then
      let attrName := (s.link.headD ("", "")).2
      ((models.map fun m => rowGet m attrName).filter fun v => ¬(v = .null)).map
        fun v => .val v
    else
      models.map fun m => .obj (s.link.map fun lk => (lk.1, rowGet m lk.1))
  let inCond : FCond :=
    .opCond "in"
      [.list (attributes.map fun a => .val (.str a)), .list (uniqVals [] values)]
  { s with whereCond := andWhere s.whereCond inCond }

/-- How the via chain of a lazy `prepare` resolved (part_011 lines
292-320): no via, a junction table's rows (`_findJunctionRows`), or an
intermediate relation's results (all rows for a multi-valued via, an
optional single row otherwise). -/
inductive ViaSetting where
  | noVia : ViaSetting
  | junction (viaModels : List Row) : ViaSetting
  | viaRelationMany (viaModels : List Row) : ViaSetting
  | viaRelationOne (viaModel : Option Row) : ViaSetting

/-- The lazy-relational branch of `Jii.sql.ActiveQuery.prepare` (part_011
lines 283-333): clone `_where`, filter by the via-resolved models (the
intermediate `populateRelation` call on the primary record mutates the
record, not this query), snapshot the derived query
(`Modelled from the spec:` `Jii.sql.Query.createFromQuery` — not under
`src/` — copies the prepared query; only its `where` matters here), restore
`this._where`, and add `_on` to the derived query only.  Returns the query
state after `prepare` and the derived query's `where`. -/
def prepareLazy (s : AQLazyState) (primaryModel : Row) (via : ViaSetting) :
    AQLazyState × Option FCond :=
  let savedWhere := s.whereCond
  let s1 :=
    match via with
    | .noVia => filterByModels s [primaryModel]
    | .junction viaModels => filterByModels s viaModels
    | .viaRelationMany viaModels => filterByModels s viaModels
    | .viaRelationOne m =>
      filterByModels s (match m with | some mm => [mm] | none => [])
  let derivedWhere := s1.whereCond
  let s2 := { s1 with whereCond := savedWhere }
  let derivedWhere2 :=
    match s.onCond with
    | some onC => if argIsEmpty (.cond onC) then derivedWhere else andWhere derivedWhere onC
    | none => derivedWhere
  (s2, derivedWhere2)

/-- C4: after the lazy-relational `prepare`, the query object's own `where`
equals its value before the call, whatever the via chain resolved to — the
`['in', …]` via-filter produced by `_filterByModels` survives only on the
derived query (shown here with no extra `on` condition), never on the
relation query itself. -/
theorem C4_prepare_restores_where (s : AQLazyState) (pm : Row) (via : ViaSetting) :
    (prepareLazy s pm via).1.whereCond = s.whereCond ∧
    (prepareLazy { s with onCond := none } pm .noVia).2 =
      (filterByModels { s with onCond := none } [pm]).whereCond := by
  constructor
  · cases via <;> rfl
  · rfl

end JiiSql
